import Mathlib

/-!
Verification of the PharmaDataPlatform data pipeline (src/app.py).

The embedding models the parts of `app.py` that the verified properties
touch: the price-normalization step of `load_data` (lines 169-179), the
classification-column cleanup (lines 181-187), the Dashboard price
re-preparation (lines 388-394), the aggregation in
`calculate_dashboard_data` (lines 412-468), the Top-10 truncation of the
Dashboard charts (lines 576-588), the schema migration
`ensure_tables_and_columns` (lines 189-222) and the observation-form
submit handler (lines 642-666).

Tables are lists of rows; a SQL NULL cell is `none`; the float NaN that
pandas uses for an unparseable price is `none` in an `Option ℚ` column.
`pd.to_numeric(errors := coerce)` on a string column is modelled by
`parsePandasFloat`: surrounding whitespace is skipped, an optional sign,
a mantissa of digits with at most one dot, and an optional exponent are
accepted, anything else is `none` (the special words inf and nan that the
pandas parser also knows are out of scope here and map to `none`).
`astype(str)` on an object column renders a missing value as the literal
string "None", which `cleanCell` reproduces.
-/

namespace PharmaSpec

/-- Characters kept by the regex replace of line 171 of app.py,
`str.replace(r[^\x5cd,.], )`: digits, comma and dot survive. -/
def keepChar (c : Char) : Bool := c.isDigit || c == ',' || c == '.'

/-- Value of a digit string read left to right in base 10. -/
def digitsVal (ds : List Char) : ℕ :=
  ds.foldl (fun a c => 10 * a + (c.toNat - '0'.toNat)) 0

/-- Value of a decimal literal split into integer part and fractional part. -/
def decimalVal (ip fp : List Char) : ℚ :=
  (digitsVal ip : ℚ) + (digitsVal fp : ℚ) / (10 : ℚ) ^ fp.length

/-- Not a dot. -/
def notDot (c : Char) : Bool := !(c == '.')

/-- The mantissa grammar of the pandas float parser: at least one digit,
only digits and at most one dot.  Returns its value. -/
def parseMantissa (s : List Char) : Option ℚ :=
  if s.any Char.isDigit ∧ s.all (fun c => c.isDigit || c == '.') ∧ s.count '.' ≤ 1 then
    some (decimalVal (s.takeWhile notDot) ((s.dropWhile notDot).drop 1))
  else none

/-- Strip one leading sign character; the Bool is true for a minus. -/
def signSplit (l : List Char) : Bool × List Char :=
  match l with
  | [] => (false, [])
  | c :: r =>
    if c == '-' then (true, r)
    else if c == '+' then (false, r)
    else (false, c :: r)

/-- Negate when the flag is set. -/
def applySign (neg : Bool) (q : ℚ) : ℚ := if neg then -q else q

/-- Signed exponent value. -/
def expVal (neg : Bool) (n : ℕ) : ℤ := if neg then -(n : ℤ) else (n : ℤ)

/-- Drop surrounding whitespace, as the pandas numeric parser does. -/
def trimWs (l : List Char) : List Char :=
  ((l.dropWhile Char.isWhitespace).reverse.dropWhile Char.isWhitespace).reverse

/-- Not an exponent marker. -/
def notExpChar (c : Char) : Bool := !(c == 'e' || c == 'E')

/-- `pd.to_numeric(errors := coerce)` applied to one string, as a value in
`Option ℚ`: `none` is the NaN it yields for an unparseable string. -/
def parsePandasFloat (l : List Char) : Option ℚ :=
  match (signSplit (trimWs l)).2.dropWhile notExpChar with
  | [] =>
    (parseMantissa ((signSplit (trimWs l)).2.takeWhile notExpChar)).map
      (applySign (signSplit (trimWs l)).1)
  | _ :: es =>
    if (signSplit es).2 ≠ [] ∧ (signSplit es).2.all Char.isDigit then
      (parseMantissa ((signSplit (trimWs l)).2.takeWhile notExpChar)).map
        (fun m => applySign (signSplit (trimWs l)).1
          (m * (10 : ℚ) ^ expVal (signSplit es).1 (digitsVal (signSplit es).2)))
    else none

/-- Comma to dot, line 172 of app.py: `str.replace(, .)` without regex. -/
def commaToDot (l : List Char) : List Char :=
  l.map (fun c => if c == ',' then '.' else c)

/-- The load-time price normalization of `load_data` (app.py lines 171-175):
keep only digits, commas and dots, turn commas into dots, then coerce with
`pd.to_numeric`. -/
def extract_numeric_price (s : String) : Option ℚ :=
  parsePandasFloat (commaToDot (s.data.filter keepChar))

/-- The Dashboard price preparation (app.py lines 390-391): only the comma
to dot replacement, then `pd.to_numeric`; nothing is stripped. -/
def dashboard_price (s : String) : Option ℚ :=
  parsePandasFloat (commaToDot s.data)

/-- `astype(str)` on one object cell: a present string is unchanged and a
missing value becomes the literal string "None". -/
def cleanCell : Option String → String
  | some s => s
  | none => "None"

/-- One row of the `drugs` table.  `id` is the store-assigned row id,
`price` the free-text price column, `Observations` the mutable latest
observation, `price_numeric` the derived numeric column (absent before the
cleaning step ever ran, `none` also models its NaN entries). -/
structure Row where
  id : ℕ
  name : Option String
  scientific_name : Option String
  Code_ATC : Option String
  therapeutic_class : Option String
  type : Option String
  source : Option String
  price : Option String
  Observations : Option String
  price_numeric : Option ℚ
  deriving DecidableEq

/-- The cleaning section of `load_data` (app.py lines 168-187) on one row:
`price_numeric` is computed by the tolerant extraction, and the four
classification columns go through `astype(str).fillna(Unknown)` — since
`astype(str)` leaves no missing value behind, the `fillna` never fires and
the step amounts to `cleanCell`. -/
def normalizeRow (r : Row) : Row :=
  { r with
    price_numeric := extract_numeric_price (cleanCell r.price)
    therapeutic_class := some (cleanCell r.therapeutic_class)
    type := some (cleanCell r.type)
    source := some (cleanCell r.source)
    Code_ATC := some (cleanCell r.Code_ATC) }

/-- The whole cleaning step of `load_data` on a table. -/
def normalize (t : List Row) : List Row := t.map normalizeRow

/-- State of the SQLite store as `load_data` can find it: the database file
missing, the `drugs` table absent, a connection or query error, or a
readable table. -/
inductive StoreState where
  | fileMissing : StoreState
  | tableAbsent : StoreState
  | queryError : StoreState
  | ok : List Row → StoreState

/-- `load_data` (app.py lines 155-187) plus the `get_db_path` guard: the
result table and the list of error messages shown with `st.error`.  On
every failure the code shows an error and hands back an empty frame (the
except branch returns `pd.DataFrame()`). -/
def load_data : StoreState → List Row × List String
  | .fileMissing => ([], ["Database all_pharma.db not found. Please ensure it is available."])
  | .tableAbsent => ([], ["Fatal error loading drugs table"])
  | .queryError => ([], ["Database connection error"])
  | .ok rows => (normalize rows, [])

/-- Reading the `name` column as `calculate_dashboard_data` does after its
`astype(str)` on line 416. -/
def rowName (r : Row) : String := cleanCell r.name

/-- Reading the `therapeutic_class` column as a string. -/
def rowClass (r : Row) : String := cleanCell r.therapeutic_class

/-- Reading the `type` column as a string. -/
def rowType (r : Row) : String := cleanCell r.type

/-- Reading the `source` column as a string. -/
def rowSource (r : Row) : String := cleanCell r.source

/-- Lexicographic comparison of character lists by code point, the string
order Python and pandas use for sorting and for groupby keys. -/
def lexLe : List Char → List Char → Bool
  | [], _ => true
  | _ :: _, [] => false
  | a :: as, b :: bs => if a < b then true else if b < a then false else lexLe as bs

/-- The lexicographic string order as a relation. -/
def strle (a b : String) : Prop := lexLe a.data b.data = true

instance : DecidableRel strle :=
  fun a b => inferInstanceAs (Decidable (lexLe a.data b.data = true))

/-- Strict lexicographic string order. -/
def strlt (a b : String) : Prop := strle a b ∧ a ≠ b

/-- pandas `groupby` enumerates the distinct keys in ascending order; the
sort is modelled by a stable insertion sort. -/
def sortAsc (l : List String) : List String :=
  List.insertionSort strle l

/-- `df.groupby(col)[name].count().reset_index()` (app.py lines 426, 436,
447): one output row per distinct key, keys ascending, each with the number
of input rows carrying that key. -/
def groupCountBy (key : Row → String) (t : List Row) : List (String × ℕ) :=
  (sortAsc (t.map key).dedup).map
    (fun k => (k, (t.filter (fun r => key r == k)).length))

/-- The ordering `sort_values(by := count, ascending := False)` sorts by:
the count of the left row is at least the count of the right row. -/
def countGE (a b : String × ℕ) : Prop := b.2 ≤ a.2

instance : DecidableRel countGE := fun a b => Nat.decLe b.2 a.2

instance : IsTotal (String × ℕ) countGE :=
  ⟨fun a b => (Nat.le_total b.2 a.2).elim Or.inl Or.inr⟩

instance : IsTrans (String × ℕ) countGE :=
  ⟨fun _ _ _ h1 h2 => le_trans h2 h1⟩

/-- `sort_values` on the count column, descending (app.py lines 438, 449),
modelled by a stable insertion sort on the count key. -/
def sortByCountDesc (l : List (String × ℕ)) : List (String × ℕ) :=
  List.insertionSort countGE l

/-- `df_class_therapy` of `calculate_dashboard_data` (app.py lines
426-431): the group count by therapeutic class.  The code never applies
`sort_values` to this frame, so it stays in groupby key order. -/
def df_class_therapy (t : List Row) : List (String × ℕ) :=
  groupCountBy rowClass t

/-- `df_type` of `calculate_dashboard_data` (app.py lines 436-442): group
count by galenic form, sorted by descending count. -/
def df_type (t : List Row) : List (String × ℕ) :=
  sortByCountDesc (groupCountBy rowType t)

/-- `df_source` of `calculate_dashboard_data` (app.py lines 447-453): group
count by source, sorted by descending count. -/
def df_source (t : List Row) : List (String × ℕ) :=
  sortByCountDesc (groupCountBy rowSource t)

/-- The rows whose `price_numeric` is defined —
`df_products[df_products[price_numeric].notna()]` on line 458. -/
def definedRows (t : List Row) : List Row :=
  t.filter (fun r => r.price_numeric.isSome)

/-- The defined-price rows of one class. -/
def definedOfClass (t : List Row) (k : String) : List Row :=
  (definedRows t).filter (fun r => rowClass r == k)

/-- `df_price_class` of `calculate_dashboard_data` (app.py lines 458-462):
drop the rows with NaN price, group by therapeutic class, and report the
mean price and the row count of each group. -/
def df_price_class (t : List Row) : List (String × ℚ × ℕ) :=
  (sortAsc ((definedRows t).map rowClass).dedup).map
    (fun k =>
      (k, ((definedOfClass t k).filterMap (fun r => r.price_numeric)).sum /
            ((definedOfClass t k).length : ℚ),
        (definedOfClass t k).length))

/-- The four summary frames `calculate_dashboard_data` returns. -/
structure DashboardData where
  class_therapy : List (String × ℕ)
  type_counts : List (String × ℕ)
  source_counts : List (String × ℕ)
  price_class : List (String × ℚ × ℕ)
  deriving DecidableEq

/-- `calculate_dashboard_data` (app.py lines 412-468), keeping the columns
the claims are about (the display-only molecule strings are omitted). -/
def calculate_dashboard_data (t : List Row) : DashboardData :=
  { class_therapy := df_class_therapy t
    type_counts := df_type t
    source_counts := df_source t
    price_class := df_price_class t }

/-- The Dashboard data preparation (app.py lines 389-391): `price_numeric`
is overwritten from the raw price column using the Dashboard parse. -/
def dashPrep (rows : List Row) : List Row :=
  rows.map (fun r => { r with price_numeric := dashboard_price (cleanCell r.price) })

/-- The Dashboard branch (app.py lines 384-406 and 561): load, re-prepare
the price column, stop with an error on an empty frame (`st.stop`, modelled
by `none`), otherwise compute the four summary frames. -/
def dashboardRun (s : StoreState) : List String × Option DashboardData :=
  let res := load_data s
  let df := dashPrep res.1
  if df.isEmpty then
    (res.2 ++ ["Data required for the Dashboard is missing or empty."], none)
  else (res.2, some (calculate_dashboard_data df))

/-- The schema state `ensure_tables_and_columns` acts on: the column list
of `drugs` and whether the `observations` table exists. -/
structure Schema where
  drugsCols : List String
  hasObservationsTable : Bool
  deriving DecidableEq

/-- `ensure_tables_and_columns` (app.py lines 189-222): add the
Observations column to `drugs` only when absent, and create the
`observations` table if it does not exist. -/
def ensure_tables_and_columns (s : Schema) : Schema :=
  let s1 := if "Observations" ∈ s.drugsCols then s
            else { s with drugsCols := s.drugsCols ++ ["Observations"] }
  { s1 with hasObservationsTable := true }

/-- One row of the `observations` table; `date` is the store-assigned
timestamp (`DEFAULT CURRENT_TIMESTAMP`), always present. -/
structure Obs where
  id : ℕ
  product_name : String
  type : String
  comment : String
  date : ℕ
  deriving DecidableEq

/-- The persistent store: the `drugs` table, the `observations` table and
the autoincrement counter. -/
structure DB where
  drugs : List Row
  observations : List Obs
  nextId : ℕ
  deriving DecidableEq

/-- The body of the observation submit handler (app.py lines 647-658):
insert one observation row (the store assigns id and timestamp), then
overwrite the Observations cell of every drugs row whose name equals the
given name by plain string equality. -/
def append_observation (db : DB) (now : ℕ) (pname ptype comment : String) : DB :=
  { drugs := db.drugs.map
      (fun r => if r.name = some pname then { r with Observations := some comment } else r)
    observations := db.observations ++
      [{ id := db.nextId, product_name := pname, type := ptype,
         comment := comment, date := now }]
    nextId := db.nextId + 1 }

/-- The submit handler with its guard (app.py lines 642-668): the write
only happens when the product name and the comment are nonempty; the Bool
reports whether a row was saved. -/
def submit_observation (db : DB) (now : ℕ) (pname ptype comment : String) : DB × Bool :=
  if pname ≠ "" ∧ comment ≠ "" then (append_observation db now pname ptype comment, true)
  else (db, false)

/-- The order a count-descending, label-ascending summary satisfies: the
right row has a strictly smaller count, or the counts tie and the left
label is lexicographically smaller. -/
def keyLT (a b : String × ℕ) : Prop := b.2 < a.2 ∨ (a.2 = b.2 ∧ strlt a.1 b.1)

/-- A row with every cell empty, to build concrete test tables from. -/
def blankRow : Row :=
  { id := 0, name := none, scientific_name := none, Code_ATC := none,
    therapeutic_class := none, type := none, source := none, price := none,
    Observations := none, price_numeric := none }

/-- A row carrying only a galenic form value. -/
def typeRow (s : String) : Row := { blankRow with type := some s }

/-- A row carrying only a therapeutic class value. -/
def classRow (s : String) : Row := { blankRow with therapeutic_class := some s }

/-- Eleven rows with eleven distinct galenic forms: more distinct
categories than the Top-10 truncation keeps. -/
def t11 : List Row :=
  [typeRow "A", typeRow "B", typeRow "C", typeRow "D", typeRow "E",
   typeRow "F", typeRow "G", typeRow "H", typeRow "I", typeRow "J", typeRow "K"]

/-- Three rows over two classes, the smaller class first in label order. -/
def c4rows : List Row := [classRow "A", classRow "B", classRow "B"]

/-- A row whose descriptive cells hold padded, empty and missing values. -/
def c5Row : Row :=
  { blankRow with name := some "N", type := some "",
                  therapeutic_class := some "  X ", source := none,
                  Code_ATC := some "" }

/-- A one-product store for the observation scenario. -/
def sampleDB : DB :=
  { drugs := [{ blankRow with id := 1, name := some "DrugX" }],
    observations := [], nextId := 7 }

/-! Order facts about the lexicographic comparison, and the instances the
sortedness lemmas of `List.insertionSort` ask for. -/

theorem lexLe_cons (a b : Char) (as bs : List Char) :
    lexLe (a :: as) (b :: bs) =
      if a < b then true else if b < a then false else lexLe as bs := rfl

theorem lexLe_total : ∀ as bs : List Char, lexLe as bs = true ∨ lexLe bs as = true
  | [], _ => Or.inl rfl
  | _ :: _, [] => Or.inr rfl
  | a :: as, b :: bs => by
    rcases lt_trichotomy a b with h | h | h
    · exact Or.inl (by simp [lexLe_cons, h])
    · subst h
      rcases lexLe_total as bs with h | h
      · exact Or.inl (by simp [lexLe_cons, h])
      · exact Or.inr (by simp [lexLe_cons, h])
    · exact Or.inr (by simp [lexLe_cons, h])

theorem lexLe_trans : ∀ as bs cs : List Char,
    lexLe as bs = true → lexLe bs cs = true → lexLe as cs = true
  | [], _, _, _, _ => rfl
  | _ :: _, [], _, h1, _ => by simp [lexLe] at h1
  | _ :: _, _ :: _, [], _, h2 => by simp [lexLe] at h2
  | a :: as, b :: bs, c :: cs, h1, h2 => by
    rw [lexLe_cons] at h1 h2 ⊢
    rcases lt_trichotomy a b with hab | hab | hab
    · rcases lt_trichotomy b c with hbc | hbc | hbc
      · simp [lt_trans hab hbc]
      · subst hbc; simp [hab]
      · rw [if_neg (asymm hbc), if_pos hbc] at h2; exact absurd h2 (by decide)
    · subst hab
      rcases lt_trichotomy a c with hac | hac | hac
      · simp [hac]
      · subst hac
        rw [if_neg (lt_irrefl a), if_neg (lt_irrefl a)] at h1 h2 ⊢
        exact lexLe_trans as bs cs h1 h2
      · rw [if_neg (asymm hac), if_pos hac] at h2; exact absurd h2 (by decide)
    · rw [if_neg (asymm hab), if_pos hab] at h1; exact absurd h1 (by decide)

instance : IsTotal String strle := ⟨fun a b => lexLe_total a.data b.data⟩

instance : IsTrans String strle := ⟨fun a b c => lexLe_trans a.data b.data c.data⟩

/-- Two pairwise facts combine pointwise. -/
theorem pairwise_and {α : Type} {R S : α → α → Prop} :
    ∀ {l : List α}, l.Pairwise R → l.Pairwise S →
      l.Pairwise (fun a b => R a b ∧ S a b)
  | [], _, _ => List.Pairwise.nil
  | _ :: _, List.Pairwise.cons hR hRs, List.Pairwise.cons hS hSs =>
    List.Pairwise.cons (fun x hx => ⟨hR x hx, hS x hx⟩) (pairwise_and hRs hSs)

/-- The sorted, deduplicated key list of a groupby is strictly ascending. -/
theorem sortAsc_dedup_pairwise (l : List String) :
    (sortAsc l.dedup).Pairwise strlt := by
  have hs : (sortAsc l.dedup).Pairwise strle := List.sorted_insertionSort strle l.dedup
  have hn : (sortAsc l.dedup).Pairwise (fun a b : String => a ≠ b) :=
    ((List.perm_insertionSort strle l.dedup).nodup_iff).mpr (List.nodup_dedup l)
  exact pairwise_and hs hn

/-! Claim theorems. -/

/-- Claim C6: the cleaning step of load_data is idempotent, and it keeps the
original text price column unmodified. -/
theorem C6_normalize_idempotent (t : List Row) :
    normalize (normalize t) = normalize t ∧
      (normalize t).map (fun r => r.price) = t.map (fun r => r.price) := by
  constructor
  · rw [normalize, normalize, List.map_map]
    apply List.map_congr_left
    intro r _
    cases r
    simp [normalizeRow, cleanCell]
  · rw [normalize, List.map_map]
    rfl

/-- Claim C8: the schema migration is idempotent — iterating it any number
of times equals one call, it adds the Observations column exactly when the
column is absent, and it always leaves the observations table present. -/
theorem C8_ensure_idempotent (s : Schema) (n : ℕ) :
    ensure_tables_and_columns^[n + 1] s = ensure_tables_and_columns s ∧
      (ensure_tables_and_columns s).drugsCols =
        (if "Observations" ∈ s.drugsCols then s.drugsCols
         else s.drugsCols ++ ["Observations"]) ∧
      (ensure_tables_and_columns s).hasObservationsTable = true ∧
      "Observations" ∈ (ensure_tables_and_columns s).drugsCols := by
  have hmem : ∀ u : Schema, "Observations" ∈ (ensure_tables_and_columns u).drugsCols := by
    intro u
    by_cases h : "Observations" ∈ u.drugsCols
    · simp [ensure_tables_and_columns, h]
    · simp [ensure_tables_and_columns, h]
  have hidem : ∀ u : Schema,
      ensure_tables_and_columns (ensure_tables_and_columns u) =
        ensure_tables_and_columns u := by
    intro u
    have h2 := hmem u
    cases hu : ensure_tables_and_columns u with
    | mk cols hasObs =>
      have : hasObs = true := by
        have := congrArg Schema.hasObservationsTable hu
        simpa [ensure_tables_and_columns] using this.symm
      subst this
      rw [hu] at h2
      simp [ensure_tables_and_columns, h2]
  refine ⟨?_, ?_, ?_, hmem s⟩
  · induction n with
    | zero => rfl
    | succ m ih =>
      rw [Function.iterate_succ_apply', ih, hidem s]
  · by_cases h : "Observations" ∈ s.drugsCols <;>
      simp [ensure_tables_and_columns, h]
  · simp [ensure_tables_and_columns]

/-- Claim C9: with a nonempty product name and comment, the submit handler
inserts exactly one observation row carrying the store-assigned timestamp,
overwrites the Observations cell of every product of that exact name, leaves
all other rows as they were, and changes nothing in drugs when no product
name matches. -/
theorem C9_append_observation (db : DB) (now : ℕ) (pname ptype comment : String)
    (h1 : pname ≠ "") (h2 : comment ≠ "") :
    (submit_observation db now pname ptype comment).2 = true ∧
      (submit_observation db now pname ptype comment).1.observations =
        db.observations ++
          [{ id := db.nextId, product_name := pname, type := ptype,
             comment := comment, date := now }] ∧
      (submit_observation db now pname ptype comment).1.observations.length =
        db.observations.length + 1 ∧
      (∀ r ∈ (submit_observation db now pname ptype comment).1.drugs,
        r.name = some pname → r.Observations = some comment) ∧
      (∀ r ∈ db.drugs, r.name ≠ some pname →
        r ∈ (submit_observation db now pname ptype comment).1.drugs) ∧
      ((∀ r ∈ db.drugs, r.name ≠ some pname) →
        (submit_observation db now pname ptype comment).1.drugs = db.drugs) := by
  have hsub : submit_observation db now pname ptype comment =
      (append_observation db now pname ptype comment, true) := by
    rw [submit_observation, if_pos ⟨h1, h2⟩]
  rw [hsub]
  refine ⟨rfl, rfl, by simp [append_observation], ?_, ?_, ?_⟩
  · intro r hr hname
    rcases List.mem_map.mp hr with ⟨r0, _, hr0⟩
    by_cases hm : r0.name = some pname
    · rw [if_pos hm] at hr0
      rw [← hr0]
    · rw [if_neg hm] at hr0
      exact absurd (hr0 ▸ hname) hm
  · intro r hr hname
    refine List.mem_map.mpr ⟨r, hr, ?_⟩
    rw [if_neg hname]
  · intro hnone
    show db.drugs.map _ = db.drugs
    have : ∀ r ∈ db.drugs,
        (if r.name = some pname then { r with Observations := some comment } else r) = r := by
      intro r hr
      rw [if_neg (hnone r hr)]
    calc db.drugs.map _ = db.drugs.map id := List.map_congr_left this
    _ = db.drugs := List.map_id db.drugs

/-- Claim C9 witness: the DrugX scenario on a concrete store. -/
theorem C9_witness :
    (submit_observation sampleDB 5 "DrugX" "Medical" "note").2 = true ∧
      (submit_observation sampleDB 5 "DrugX" "Medical" "note").1.observations =
        [{ id := 7, product_name := "DrugX", type := "Medical",
           comment := "note", date := 5 }] ∧
      (∀ r ∈ (submit_observation sampleDB 5 "DrugX" "Medical" "note").1.drugs,
        r.name = some "DrugX" → r.Observations = some "note") := by
  have h := C9_append_observation sampleDB 5 "DrugX" "Medical" "note"
    (by decide) (by decide)
  exact ⟨h.1, by rw [h.2.1]; rfl, h.2.2.2.1⟩

/-- Claim C2: on every store failure — database file missing, drugs table
absent, or a connection or query error — load_data surfaces a visible error
message, the failure messages are pairwise distinct, and the Dashboard stops
without computing any aggregate instead of aggregating over the substituted
empty frame. -/
theorem C2_store_failure_terminal :
    (load_data StoreState.fileMissing).2 ≠ [] ∧
      (load_data StoreState.tableAbsent).2 ≠ [] ∧
      (load_data StoreState.queryError).2 ≠ [] ∧
      (load_data StoreState.fileMissing).2 ≠ (load_data StoreState.tableAbsent).2 ∧
      (load_data StoreState.tableAbsent).2 ≠ (load_data StoreState.queryError).2 ∧
      (load_data StoreState.fileMissing).2 ≠ (load_data StoreState.queryError).2 ∧
      (dashboardRun StoreState.fileMissing).2 = none ∧
      (dashboardRun StoreState.tableAbsent).2 = none ∧
      (dashboardRun StoreState.queryError).2 = none := by
  refine ⟨by decide, by decide, by decide, by decide, by decide, by decide, rfl, rfl, rfl⟩

/-- Claim C5 counterexample: at load time the descriptive columns are not
trimmed ("  X " stays padded), an empty string is not replaced by any
sentinel, and a missing value becomes the string "None", not "Unknown". -/
theorem C5_counterexample :
    (normalizeRow c5Row).therapeutic_class = some "  X " ∧ ("  X " : String) ≠ "X" ∧
      (normalizeRow c5Row).type = some "" ∧ ("" : String) ≠ "Unspecified" ∧
      ("" : String) ≠ "Unknown" ∧
      (normalizeRow c5Row).source = some "None" ∧ ("None" : String) ≠ "Unknown" := by
  decide

/-- Claim C5 as amended: the cleanup converts the four classification
columns to strings — a present value passes through verbatim (no trimming,
no empty-value replacement), a missing value becomes the literal string
"None" — and the name and identifier columns are never altered. -/
theorem C5_amended_thm (r : Row) :
    (normalizeRow r).name = r.name ∧
      (normalizeRow r).id = r.id ∧
      (normalizeRow r).scientific_name = r.scientific_name ∧
      (∀ s, r.therapeutic_class = some s → (normalizeRow r).therapeutic_class = some s) ∧
      (∀ s, r.type = some s → (normalizeRow r).type = some s) ∧
      (∀ s, r.source = some s → (normalizeRow r).source = some s) ∧
      (∀ s, r.Code_ATC = some s → (normalizeRow r).Code_ATC = some s) ∧
      (r.therapeutic_class = none → (normalizeRow r).therapeutic_class = some "None") := by
  refine ⟨rfl, rfl, rfl, ?_, ?_, ?_, ?_, ?_⟩
  · intro s h; simp [normalizeRow, h, cleanCell]
  · intro s h; simp [normalizeRow, h, cleanCell]
  · intro s h; simp [normalizeRow, h, cleanCell]
  · intro s h; simp [normalizeRow, h, cleanCell]
  · intro h; simp [normalizeRow, h, cleanCell]

/-- Claim C5 witness: the amended statement evaluated on the concrete row. -/
theorem C5_witness :
    (normalizeRow c5Row).name = c5Row.name ∧
      (normalizeRow c5Row).therapeutic_class = some "  X " := by
  have h := C5_amended_thm c5Row
  exact ⟨h.1, h.2.2.2.1 "  X " rfl⟩

/-- Claim C10 counterexample: the load-time pass parses "100 EUR" to 100.0
while the Dashboard pass, which strips nothing, yields NaN on it. -/
theorem C10_counterexample :
    extract_numeric_price "100 EUR" = some 100 ∧ dashboard_price "100 EUR" = none := by
  constructor
  · have h : extract_numeric_price "100 EUR" = some (decimalVal ['1', '0', '0'] []) := rfl
    rw [h]
    norm_num [decimalVal, show digitsVal ['1', '0', '0'] = 100 from rfl,
      show digitsVal ([] : List Char) = 0 from rfl]
  · decide

/-- Claim C10 as amended: the two price passes agree exactly on strings
made only of digits, commas and dots (where stripping is the identity); on
strings with any other character they can differ, as the counterexample
shows. -/
theorem C10_amended_thm (s : String) (h : s.data.all keepChar = true) :
    extract_numeric_price s = dashboard_price s := by
  rw [extract_numeric_price, dashboard_price,
    List.filter_eq_self.mpr (List.all_eq_true.mp h)]

/-- Claim C10 witness: both passes on the bare numeral "2,50". -/
theorem C10_witness :
    ("2,50".data.all keepChar = true) ∧
      extract_numeric_price "2,50" = dashboard_price "2,50" :=
  ⟨by decide, C10_amended_thm "2,50" (by decide)⟩

/-! Character-class facts and parser reduction lemmas for the price claims. -/

theorem isDigit_ne {c : Char} (d : Char) (h : c.isDigit = true)
    (hd : d.isDigit = false) : c ≠ d := by
  intro e
  rw [e, hd] at h
  exact absurd h (by decide)

theorem dropWhile_no {p : Char → Bool} {l : List Char}
    (h : ∀ c ∈ l, p c = false) : l.dropWhile p = l := by
  cases l with
  | nil => rfl
  | cons c r =>
    rw [List.dropWhile_cons, h c (List.mem_cons_self c r)]
    simp

theorem trimWs_no_ws {l : List Char} (h : ∀ c ∈ l, c.isWhitespace = false) :
    trimWs l = l := by
  rw [trimWs, dropWhile_no h,
    dropWhile_no (fun c hc => h c (List.mem_reverse.mp hc)), List.reverse_reverse]

theorem signSplit_no_sign {l : List Char} (h : ∀ c ∈ l, c ≠ '-' ∧ c ≠ '+') :
    signSplit l = (false, l) := by
  cases l with
  | nil => rfl
  | cons c r =>
    have h1 := (h c (List.mem_cons_self c r)).1
    have h2 := (h c (List.mem_cons_self c r)).2
    rw [signSplit]
    simp [h1, h2]

theorem signSplit_mem {c : Char} {l : List Char} (h : c ∈ (signSplit l).2) : c ∈ l := by
  cases l with
  | nil => exact h
  | cons a r =>
    rw [signSplit] at h
    by_cases h1 : (a == '-') = true
    · rw [if_pos h1] at h
      exact List.mem_cons_of_mem a h
    · rw [if_neg h1] at h
      by_cases h2 : (a == '+') = true
      · rw [if_pos h2] at h
        exact List.mem_cons_of_mem a h
      · rw [if_neg h2] at h
        exact h

theorem trimWs_mem {c : Char} {l : List Char} (h : c ∈ trimWs l) : c ∈ l := by
  rw [trimWs, List.mem_reverse] at h
  have h1 := (List.dropWhile_sublist _).subset h
  rw [List.mem_reverse] at h1
  exact (List.dropWhile_sublist _).subset h1

/-- The facts about one digit-or-dot character that the parser reduction
needs. -/
theorem char_keep_facts {c : Char} (h : (c.isDigit || c == '.') = true) :
    c.isWhitespace = false ∧ c ≠ '-' ∧ c ≠ '+' ∧ notExpChar c = true := by
  have hor : c.isDigit = true ∨ (c == '.') = true := by simpa using h
  rcases hor with hd | hdot
  · have hsp : c ≠ ' ' := isDigit_ne ' ' hd (by decide)
    have htab : c ≠ '\t' := isDigit_ne '\t' hd (by decide)
    have hcr : c ≠ '\r' := isDigit_ne '\r' hd (by decide)
    have hnl : c ≠ '\n' := isDigit_ne '\n' hd (by decide)
    have hminus : c ≠ '-' := isDigit_ne '-' hd (by decide)
    have hplus : c ≠ '+' := isDigit_ne '+' hd (by decide)
    have he : c ≠ 'e' := isDigit_ne 'e' hd (by decide)
    have hE : c ≠ 'E' := isDigit_ne 'E' hd (by decide)
    exact ⟨by simp [Char.isWhitespace, hsp, htab, hcr, hnl],
      hminus, hplus, by simp [notExpChar, he, hE]⟩
  · have : c = '.' := by simpa using hdot
    subst this
    exact ⟨by decide, by decide, by decide, by decide⟩

/-- On a string of digits and dots the pandas parser is just the mantissa
grammar. -/
theorem parsePandasFloat_digitDot {l : List Char}
    (h : ∀ c ∈ l, (c.isDigit || c == '.') = true) :
    parsePandasFloat l = parseMantissa l := by
  have htrim : trimWs l = l :=
    trimWs_no_ws (fun c hc => (char_keep_facts (h c hc)).1)
  have hsign : signSplit l = (false, l) :=
    signSplit_no_sign
      (fun c hc => ⟨(char_keep_facts (h c hc)).2.1, (char_keep_facts (h c hc)).2.2.1⟩)
  have htake : l.takeWhile notExpChar = l :=
    List.takeWhile_eq_self_iff.mpr (fun c hc => (char_keep_facts (h c hc)).2.2.2)
  have hdrop : l.dropWhile notExpChar = [] :=
    List.dropWhile_eq_nil_iff.mpr (fun c hc => (char_keep_facts (h c hc)).2.2.2)
  rw [parsePandasFloat, htrim, hsign]
  simp only [hdrop, htake]
  cases parseMantissa l <;> simp [applySign]

theorem parseMantissa_no_digit {l : List Char} (h : l.any Char.isDigit = false) :
    parseMantissa l = none := by
  rw [parseMantissa, if_neg]
  intro hc
  have h1 := hc.1
  rw [h] at h1
  exact absurd h1 (by decide)

theorem parsePandasFloat_no_digit {l : List Char} (h : ∀ c ∈ l, c.isDigit = false) :
    parsePandasFloat l = none := by
  have hmant : ((signSplit (trimWs l)).2.takeWhile notExpChar).any Char.isDigit = false := by
    rw [← Bool.not_eq_true, List.any_eq_true]
    rintro ⟨c, hc, hdig⟩
    have h1 : c ∈ (signSplit (trimWs l)).2 := (List.takeWhile_sublist _).subset hc
    have h2 : c ∈ l := trimWs_mem (signSplit_mem h1)
    rw [h c h2] at hdig
    exact absurd hdig (by decide)
  rw [parsePandasFloat]
  split
  · rw [parseMantissa_no_digit hmant]
    rfl
  · split
    · rw [parseMantissa_no_digit hmant]
      rfl
    · rfl

theorem commaToDot_digits {l : List Char} (h : ∀ c ∈ l, c.isDigit = true) :
    commaToDot l = l := by
  rw [commaToDot]
  calc l.map (fun c => if c == ',' then '.' else c) = l.map id :=
    List.map_congr_left (fun c hc => by
      rw [if_neg]
      · rfl
      · simp [beq_eq_false_iff_ne.mpr (isDigit_ne ',' (h c hc) (by decide))])
  _ = l := List.map_id l

/-- takeWhile and dropWhile split a list exactly at a failing middle
element when everything before it passes. -/
theorem takeWhile_middle {p : Char → Bool} :
    ∀ (ip : List Char) (x : Char) (fp : List Char), (∀ c ∈ ip, p c = true) →
      p x = false →
      ((ip ++ x :: fp).takeWhile p = ip ∧ (ip ++ x :: fp).dropWhile p = x :: fp)
  | [], x, fp, _, hx => by
    constructor
    · rw [List.nil_append, List.takeWhile_cons, hx]
      simp
    · rw [List.nil_append, List.dropWhile_cons, hx]
      simp
  | c :: ip, x, fp, h, hx => by
    have hc : p c = true := h c (List.mem_cons_self c ip)
    have ih := takeWhile_middle ip x fp (fun d hd => h d (List.mem_cons_of_mem c hd)) hx
    constructor
    · rw [List.cons_append, List.takeWhile_cons, hc]
      simp only [if_true]
      rw [ih.1]
    · rw [List.cons_append, List.dropWhile_cons, hc]
      simp only [if_true]
      rw [ih.2]

/-- The mantissa of one decimal literal, integer digits, one dot,
fractional digits. -/
theorem parseMantissa_decimal (ip fp : List Char)
    (hip : ∀ c ∈ ip, c.isDigit = true) (hfp : ∀ c ∈ fp, c.isDigit = true)
    (hne : ip ++ fp ≠ []) :
    parseMantissa (ip ++ '.' :: fp) = some (decimalVal ip fp) := by
  have hdig : ∀ c ∈ ip ++ '.' :: fp, (c.isDigit || c == '.') = true := by
    intro c hc
    rcases List.mem_append.mp hc with h1 | h1
    · simp [hip c h1]
    · rcases List.mem_cons.mp h1 with h2 | h2
      · subst h2; decide
      · simp [hfp c h2]
  have hany : (ip ++ '.' :: fp).any Char.isDigit = true := by
    rcases List.exists_mem_of_ne_nil _ hne with ⟨c, hc⟩
    rcases List.mem_append.mp hc with h1 | h1
    · exact List.any_eq_true.mpr ⟨c, List.mem_append_left _ h1, hip c h1⟩
    · exact List.any_eq_true.mpr
        ⟨c, List.mem_append_right _ (List.mem_cons_of_mem _ h1), hfp c h1⟩
  have hcount : (ip ++ '.' :: fp).count '.' ≤ 1 := by
    have hip0 : ip.count '.' = 0 := by
      rw [List.count_eq_zero]
      intro hmem
      exact absurd rfl (isDigit_ne '.' (hip '.' hmem) (by decide)).symm
    have hfp0 : fp.count '.' = 0 := by
      rw [List.count_eq_zero]
      intro hmem
      exact absurd rfl (isDigit_ne '.' (hfp '.' hmem) (by decide)).symm
    rw [List.count_append, hip0, List.count_cons_self, hfp0]
  have hsplit := takeWhile_middle (p := notDot) ip '.' fp
    (fun c hc => by simp [notDot, beq_eq_false_iff_ne.mpr (isDigit_ne '.' (hip c hc) (by decide))])
    (by decide)
  rw [parseMantissa, if_pos ⟨hany, List.all_eq_true.mpr hdig, hcount⟩,
    hsplit.1, hsplit.2]
  rfl

/-- The mantissa of a pure digit string. -/
theorem parseMantissa_digits (ds : List Char)
    (hds : ∀ c ∈ ds, c.isDigit = true) (hne : ds ≠ []) :
    parseMantissa ds = some (decimalVal ds []) := by
  have hany : ds.any Char.isDigit = true := by
    rcases List.exists_mem_of_ne_nil _ hne with ⟨c, hc⟩
    exact List.any_eq_true.mpr ⟨c, hc, hds c hc⟩
  have hcount : ds.count '.' = 0 := by
    rw [List.count_eq_zero]
    intro hmem
    exact absurd rfl (isDigit_ne '.' (hds '.' hmem) (by decide)).symm
  have htake : ds.takeWhile notDot = ds :=
    List.takeWhile_eq_self_iff.mpr (fun c hc => by
      simp [notDot, beq_eq_false_iff_ne.mpr (isDigit_ne '.' (hds c hc) (by decide))])
  have hdrop : ds.dropWhile notDot = [] :=
    List.dropWhile_eq_nil_iff.mpr (fun c hc => by
      simp [notDot, beq_eq_false_iff_ne.mpr (isDigit_ne '.' (hds c hc) (by decide))])
  rw [parseMantissa,
    if_pos ⟨hany, List.all_eq_true.mpr (fun c hc => by simp [hds c hc]), by rw [hcount]; decide⟩,
    htake, hdrop]
  rfl

/-- Claim C1 counterexample: the string "1.000,50 EUR" contains the
recognizable decimal substring "000,50" (characters 2 to 7), which on its
own parses to 0.5, yet the load-time normalization yields NaN on the whole
string: with a dot as thousands separator the cleaned text "1.000.50" has
two dots and `pd.to_numeric` rejects it, so no numeric value is produced
although the claim promises one. -/
theorem C1_counterexample :
    ("1.000,50 EUR".data.drop 2).take 6 = "000,50".data ∧
      extract_numeric_price "000,50" = some ((1 : ℚ) / 2) ∧
      extract_numeric_price "1.000,50 EUR" = none := by
  refine ⟨by decide, ?_, by decide⟩
  have h : extract_numeric_price "000,50" = some (decimalVal ['0', '0', '0'] ['5', '0']) := rfl
  rw [h]
  norm_num [decimalVal, show digitsVal ['0', '0', '0'] = 0 from rfl,
    show digitsVal ['5', '0'] = 50 from rfl]

/-- Claim C1 as amended: the load-time price normalization depends only on
the kept characters (digits, commas, dots), so any surrounding or
interleaved non-numeric text is ignored; whenever those kept characters
form, in order, a single decimal numeral with at most one separator — with
either a comma or a dot as the decimal separator — the numeral's value is
produced; a string with no digit at all yields NaN (undefined), not zero
and not an error.  Strings whose kept characters are not one such numeral
(for instance a dot thousands separator, as in the counterexample) also
yield NaN. -/
theorem C1_amended_thm :
    (∀ s1 s2 : String, s1.data.filter keepChar = s2.data.filter keepChar →
      extract_numeric_price s1 = extract_numeric_price s2) ∧
    (∀ ip fp : List Char, ∀ sep : Char, (sep = ',' ∨ sep = '.') →
      ip.all Char.isDigit = true → fp.all Char.isDigit = true → ip ++ fp ≠ [] →
      extract_numeric_price (String.mk (ip ++ sep :: fp)) = some (decimalVal ip fp)) ∧
    (∀ ds : List Char, ds.all Char.isDigit = true → ds ≠ [] →
      extract_numeric_price (String.mk ds) = some (decimalVal ds [])) ∧
    (∀ s : String, s.data.all (fun c => !c.isDigit) = true →
      extract_numeric_price s = none) := by
  refine ⟨?_, ?_, ?_, ?_⟩
  · intro s1 s2 h
    rw [extract_numeric_price, extract_numeric_price, h]
  · intro ip fp sep hsep hip hfp hne
    have hip' := List.all_eq_true.mp hip
    have hfp' := List.all_eq_true.mp hfp
    have hkeep : ∀ c ∈ ip ++ sep :: fp, keepChar c = true := by
      intro c hc
      rcases List.mem_append.mp hc with h1 | h1
      · simp [keepChar, hip' c h1]
      · rcases List.mem_cons.mp h1 with h2 | h2
        · subst h2
          rcases hsep with h3 | h3 <;> subst h3 <;> decide
        · simp [keepChar, hfp' c h2]
    have hdata : (String.mk (ip ++ sep :: fp)).data = ip ++ sep :: fp := rfl
    rw [extract_numeric_price, hdata, List.filter_eq_self.mpr hkeep]
    have hmap : commaToDot (ip ++ sep :: fp) = ip ++ '.' :: fp := by
      rw [commaToDot, List.map_append, ← commaToDot, commaToDot_digits hip']
      rw [List.map_cons, ← commaToDot, commaToDot_digits hfp']
      rcases hsep with h3 | h3 <;> subst h3 <;> rfl
    rw [hmap, parsePandasFloat_digitDot (by
      intro c hc
      rcases List.mem_append.mp hc with h1 | h1
      · simp [hip' c h1]
      · rcases List.mem_cons.mp h1 with h2 | h2
        · subst h2; decide
        · simp [hfp' c h2])]
    exact parseMantissa_decimal ip fp hip' hfp' hne
  · intro ds hds hne
    have hds' := List.all_eq_true.mp hds
    have hkeep : ∀ c ∈ ds, keepChar c = true := fun c hc => by
      simp [keepChar, hds' c hc]
    have hdata : (String.mk ds).data = ds := rfl
    rw [extract_numeric_price, hdata, List.filter_eq_self.mpr hkeep,
      commaToDot_digits hds',
      parsePandasFloat_digitDot (fun c hc => by simp [hds' c hc])]
    exact parseMantissa_digits ds hds' hne
  · intro s h
    have h' := List.all_eq_true.mp h
    rw [extract_numeric_price]
    apply parsePandasFloat_no_digit
    intro c hc
    rcases List.mem_map.mp hc with ⟨c0, hc0, hmap⟩
    by_cases hcomma : (c0 == ',') = true
    · rw [if_pos hcomma] at hmap
      rw [← hmap]
      decide
    · rw [if_neg hcomma] at hmap
      rw [← hmap]
      have : c0 ∈ s.data := List.mem_of_mem_filter hc0
      have := h' c0 this
      rwa [Bool.not_eq_true'] at this

/-- Claim C1 witness: the spec examples evaluated through the amended
statement — "1 000,50 EUR" parses to 1000.5 via insensitivity to the
stripped characters, "DA 250.00" equals "250.00", and "invalid" is NaN. -/
theorem C1_witness :
    extract_numeric_price "1 000,50 EUR" =
      some (decimalVal ['1', '0', '0', '0'] ['5', '0']) ∧
      extract_numeric_price "DA 250.00" = extract_numeric_price "250.00" ∧
      extract_numeric_price "invalid" = none := by
  refine ⟨?_, C1_amended_thm.1 "DA 250.00" "250.00" (by decide),
    C1_amended_thm.2.2.2 "invalid" (by decide)⟩
  have h1 := C1_amended_thm.1 "1 000,50 EUR"
    (String.mk (['1', '0', '0', '0'] ++ ',' :: ['5', '0'])) (by decide)
  have h2 := C1_amended_thm.2.1 ['1', '0', '0', '0'] ['5', '0'] ','
    (Or.inl rfl) (by decide) (by decide) (by decide)
  rw [h1, h2]

/-! Aggregation lemmas: sortedness of the summary frames, conservation of
row counts under grouping, and the membership characterization of the
price-by-class frame. -/

theorem sortByCountDesc_sorted (l : List (String × ℕ)) :
    (sortByCountDesc l).Pairwise countGE :=
  List.sorted_insertionSort countGE l

theorem orderedInsert_keyLT (a : String × ℕ) :
    ∀ m : List (String × ℕ), m.Pairwise keyLT → (∀ x ∈ m, strlt a.1 x.1) →
      (List.orderedInsert countGE a m).Pairwise keyLT
  | [], _, _ => by simp [List.orderedInsert]
  | b :: m, hm, ha => by
    rw [List.orderedInsert]
    by_cases h : countGE a b
    · rw [if_pos h]
      have hble : ∀ x ∈ b :: m, x.2 ≤ a.2 := by
        intro x hx
        rcases List.mem_cons.mp hx with h1 | h1
        · subst h1; exact h
        · rcases (List.pairwise_cons.mp hm).1 x h1 with h2 | h2
          · exact le_trans (le_of_lt h2) h
          · exact le_trans (le_of_eq h2.1.symm) h
      exact List.pairwise_cons.mpr ⟨fun x hx => by
        rcases lt_or_eq_of_le (hble x hx) with h2 | h2
        · exact Or.inl h2
        · exact Or.inr ⟨h2.symm, ha x hx⟩, hm⟩
    · rw [if_neg h]
      have hab : a.2 < b.2 := Nat.lt_of_not_le h
      refine List.pairwise_cons.mpr ⟨?_, ?_⟩
      · intro x hx
        rcases (List.mem_orderedInsert countGE).mp hx with h1 | h1
        · subst h1; exact Or.inl hab
        · exact (List.pairwise_cons.mp hm).1 x h1
      · exact orderedInsert_keyLT a m (List.pairwise_cons.mp hm).2
          (fun x hx => ha x (List.mem_cons_of_mem b hx))

/-- The stable count sort of a label-ascending summary is descending in
count with ties ascending in label. -/
theorem insertionSort_keyLT :
    ∀ l : List (String × ℕ), l.Pairwise (fun a b => strlt a.1 b.1) →
      (sortByCountDesc l).Pairwise keyLT
  | [], _ => List.Pairwise.nil
  | a :: l, h => by
    show (List.orderedInsert countGE a (List.insertionSort countGE l)).Pairwise keyLT
    apply orderedInsert_keyLT
    · exact insertionSort_keyLT l (List.pairwise_cons.mp h).2
    · intro x hx
      exact (List.pairwise_cons.mp h).1 x
        ((List.perm_insertionSort countGE l).mem_iff.mp hx)

theorem groupCountBy_fst_pairwise (key : Row → String) (t : List Row) :
    (groupCountBy key t).Pairwise (fun a b => strlt a.1 b.1) := by
  rw [groupCountBy, List.pairwise_map]
  exact sortAsc_dedup_pairwise _

theorem sum_map_ite_one {a : String} :
    ∀ K : List String, K.Nodup → a ∈ K →
      (K.map (fun k => if a = k then (1 : ℕ) else 0)).sum = 1
  | [], _, h => absurd h (List.not_mem_nil a)
  | k :: K, hn, h => by
    rcases List.mem_cons.mp h with h1 | h1
    · subst h1
      have hnot : a ∉ K := (List.nodup_cons.mp hn).1
      have hz : (K.map (fun k => if a = k then (1 : ℕ) else 0)).sum = 0 := by
        apply List.sum_eq_zero
        intro x hx
        rcases List.mem_map.mp hx with ⟨k', hk', he⟩
        rw [← he, if_neg]
        intro e
        exact hnot (e ▸ hk')
      rw [List.map_cons, List.sum_cons, if_pos rfl, hz]
    · have ha : a ≠ k := fun e => (List.nodup_cons.mp hn).1 (e ▸ h1)
      rw [List.map_cons, List.sum_cons, if_neg ha,
        sum_map_ite_one K (List.nodup_cons.mp hn).2 h1]

theorem sum_map_add {f g : String → ℕ} :
    ∀ K : List String,
      (K.map (fun k => f k + g k)).sum = (K.map f).sum + (K.map g).sum
  | [] => rfl
  | k :: K => by
    rw [List.map_cons, List.sum_cons, List.map_cons, List.sum_cons,
      List.map_cons, List.sum_cons, sum_map_add K]
    omega

/-- Grouping partitions the table: over any duplicate-free key list that
covers every row, the group sizes add up to the number of rows. -/
theorem sum_group_lengths (key : Row → String) :
    ∀ (t : List Row) (K : List String), K.Nodup → (∀ r ∈ t, key r ∈ K) →
      (K.map (fun k => (t.filter (fun r => key r == k)).length)).sum = t.length
  | [], K, _, _ => by
    apply List.sum_eq_zero
    intro x hx
    rcases List.mem_map.mp hx with ⟨k, _, he⟩
    simp [← he]
  | r :: t, K, hn, hcov => by
    have ih := sum_group_lengths key t K hn
      (fun x hx => hcov x (List.mem_cons_of_mem r hx))
    have hsplit : ∀ k : String, ((r :: t).filter (fun x => key x == k)).length =
        (t.filter (fun x => key x == k)).length + (if key r = k then 1 else 0) := by
      intro k
      rw [List.filter_cons]
      by_cases h : key r = k
      · rw [if_pos (by simp [h]), if_pos h, List.length_cons]
      · rw [if_neg (by simp [h]), if_neg h, Nat.add_zero]
    calc (K.map fun k => ((r :: t).filter (fun x => key x == k)).length).sum
        = (K.map fun k => (t.filter (fun x => key x == k)).length +
            (if key r = k then 1 else 0)).sum := by
          exact congrArg List.sum (List.map_congr_left (fun k _ => hsplit k))
      _ = (K.map fun k => (t.filter (fun x => key x == k)).length).sum +
            (K.map fun k => if key r = k then (1 : ℕ) else 0).sum := sum_map_add K
      _ = t.length + 1 := by
          rw [ih, sum_map_ite_one K hn (hcov r (List.mem_cons_self r t))]
      _ = (r :: t).length := (List.length_cons r t).symm

theorem groupCountBy_sum (key : Row → String) (t : List Row) :
    ((groupCountBy key t).map Prod.snd).sum = t.length := by
  rw [groupCountBy, List.map_map]
  have hf : (Prod.snd ∘ fun k => (k, (t.filter (fun r => key r == k)).length)) =
      fun k => (t.filter (fun r => key r == k)).length := rfl
  rw [hf]
  apply sum_group_lengths
  · exact ((List.perm_insertionSort strle _).nodup_iff).mpr (List.nodup_dedup _)
  · intro r hr
    exact (List.perm_insertionSort strle _).mem_iff.mpr
      (List.mem_dedup.mpr (List.mem_map.mpr ⟨r, hr, rfl⟩))

theorem df_type_sum (t : List Row) : ((df_type t).map Prod.snd).sum = t.length := by
  rw [df_type, sortByCountDesc,
    ((List.perm_insertionSort countGE (groupCountBy rowType t)).map Prod.snd).sum_eq]
  exact groupCountBy_sum rowType t

/-- Claim C3 counterexample: eleven rows with eleven distinct galenic
forms.  The Top-10 chart keeps the first ten summary rows and simply drops
the eleventh: the displayed counts sum to 10, not to the 11 input rows, and
no synthetic "Other" bucket appears. -/
theorem C3_counterexample :
    t11.length = 11 ∧
      (t11.map rowType).dedup.length = 11 ∧
      (((df_type t11).take 10).map Prod.snd).sum = 10 ∧
      (((df_type t11).take 10).map Prod.snd).sum ≠ t11.length ∧
      "Other" ∉ ((df_type t11).take 10).map Prod.fst := by
  decide

/-- Claim C3 as amended: the Top-N step keeps the first N rows of the
count-descending summary and drops the rest — it creates no "Other"
bucket.  Every retained count is at least every dropped count, the
retained and dropped counts together sum to the total row count (so the
retained counts alone fall short whenever something is dropped), every
retained label comes from the data, and when the number of distinct
categories is at most N nothing is dropped. -/
theorem C3_amended_thm (t : List Row) (n : ℕ) :
    ((df_type t).map Prod.snd).sum = t.length ∧
      (((df_type t).take n).map Prod.snd).sum +
        (((df_type t).drop n).map Prod.snd).sum = t.length ∧
      (∀ a ∈ (df_type t).take n, ∀ b ∈ (df_type t).drop n, b.2 ≤ a.2) ∧
      (∀ p ∈ (df_type t).take n, ∃ r ∈ t, rowType r = p.1) ∧
      ((t.map rowType).dedup.length ≤ n → (df_type t).take n = df_type t) := by
  have hsum := df_type_sum t
  refine ⟨hsum, ?_, ?_, ?_, ?_⟩
  · rw [List.map_take, List.map_drop, List.sum_take_add_sum_drop, hsum]
  · have hs : (df_type t).Pairwise countGE := sortByCountDesc_sorted _
    rw [← List.take_append_drop n (df_type t)] at hs
    exact fun a ha b hb => (List.pairwise_append.mp hs).2.2 a ha b hb
  · intro p hp
    have hp1 : p ∈ df_type t := List.take_subset n _ hp
    rw [df_type, sortByCountDesc] at hp1
    have hp2 := (List.perm_insertionSort countGE _).mem_iff.mp hp1
    rw [groupCountBy] at hp2
    rcases List.mem_map.mp hp2 with ⟨k, hk, he⟩
    have hk2 := (List.perm_insertionSort strle _).mem_iff.mp hk
    rcases List.mem_map.mp (List.mem_dedup.mp hk2) with ⟨r, hr, hre⟩
    refine ⟨r, hr, ?_⟩
    rw [hre, ← he]
  · intro hlen
    apply List.take_of_length_le
    rw [df_type, sortByCountDesc, (List.perm_insertionSort countGE _).length_eq,
      groupCountBy, List.length_map, sortAsc,
      (List.perm_insertionSort strle _).length_eq]
    exact hlen

/-- Claim C4 counterexample: with one "A" row and two "B" rows the
therapeutic-class summary is returned in groupby key order [(A,1),(B,2)],
which is not descending in count. -/
theorem C4_counterexample :
    df_class_therapy c4rows = [("A", 1), ("B", 2)] ∧
      ¬ (df_class_therapy c4rows).Pairwise countGE := by
  refine ⟨by decide, ?_⟩
  intro hp
  rw [show df_class_therapy c4rows = [("A", 1), ("B", 2)] from by decide] at hp
  have h := (List.pairwise_cons.mp hp).1 ("B", 2) (List.mem_cons_self _ _)
  exact absurd h (by decide)

/-- Claim C4 as amended: only the type and source summaries are sorted by
descending count — with ties broken by ascending label, as the stable sort
of the label-ascending groupby output — while the therapeutic-class
summary is left in groupby order, ascending by label, not by count. -/
theorem C4_amended_thm (t : List Row) :
    (df_class_therapy t).Pairwise (fun a b => strlt a.1 b.1) ∧
      (df_type t).Pairwise keyLT ∧
      (df_source t).Pairwise keyLT :=
  ⟨groupCountBy_fst_pairwise rowClass t,
    insertionSort_keyLT _ (groupCountBy_fst_pairwise rowType t),
    insertionSort_keyLT _ (groupCountBy_fst_pairwise rowSource t)⟩

/-- Claim C7: a row (class, mean, count) appears in the price-by-class
frame exactly when the class has at least one member with a defined
numeric price; the count is the number of such members — rows with NaN
price are excluded, never counted as zero — and the mean is the sum of
their prices divided by that count.  Classes with no defined-price member
are omitted, not reported as NaN. -/
theorem C7_mean_by_group (t : List Row) (k : String) (m : ℚ) (c : ℕ) :
    (k, m, c) ∈ df_price_class t ↔
      (definedOfClass t k ≠ [] ∧ c = (definedOfClass t k).length ∧
        m = ((definedOfClass t k).filterMap (fun r => r.price_numeric)).sum /
          ((definedOfClass t k).length : ℚ)) := by
  rw [df_price_class]
  constructor
  · intro h
    rcases List.mem_map.mp h with ⟨k', hk', he⟩
    have h1 : k' = k := congrArg (fun p => p.1) he
    subst h1
    have hm : ((definedOfClass t k').filterMap (fun r => r.price_numeric)).sum /
        ((definedOfClass t k').length : ℚ) = m := congrArg (fun p => p.2.1) he
    have hc : (definedOfClass t k').length = c := congrArg (fun p => p.2.2) he
    have hk2 := (List.perm_insertionSort strle _).mem_iff.mp hk'
    rcases List.mem_map.mp (List.mem_dedup.mp hk2) with ⟨r, hr, hre⟩
    refine ⟨?_, hc.symm, hm.symm⟩
    exact List.ne_nil_of_mem (List.mem_filter.mpr ⟨hr, by simp [hre]⟩)
  · rintro ⟨hne, hc, hm⟩
    rcases List.exists_mem_of_ne_nil _ hne with ⟨r, hr⟩
    have h1 := List.mem_filter.mp hr
    have hk : k ∈ sortAsc ((definedRows t).map rowClass).dedup :=
      (List.perm_insertionSort strle _).mem_iff.mpr
        (List.mem_dedup.mpr (List.mem_map.mpr ⟨r, h1.1, by simpa using h1.2⟩))
    refine List.mem_map.mpr ⟨k, hk, ?_⟩
    rw [hc, hm]

end PharmaSpec
